import Mathlib

/-!
Verification of the retrieval-and-repair core of `sparql-naturalizer`.

The embedding models the TypeScript sources:
* `cleanSparqlResponse` (route handler file): the response sanitizer / repair pass;
* `getRelevantExamples`, `cosineSimilarity`, `searchKnowledgeBase`,
  `getContextForQuery` (vector-store service file): the retrieval layer.

Strings are modelled as `List Char`.  JavaScript regexes are modelled by
explicit scanning functions with the same leftmost-match / lazy-quantifier
semantics, documented at each definition.  JS whitespace (`\s`) and digits
(`\d`) are modelled over their ASCII range.
-/

/-! ## JS character classes and string helpers -/

/-- JS regex `\s` (ASCII range: space, tab, LF, VT, FF, CR). -/
def isWsJS (c : Char) : Bool :=
  c == ' ' || c == '\t' || c == '\n' || c == '\x0b' || c == '\x0c' || c == '\r'

/-- JS regex `\d`. -/
def isDigitJS (c : Char) : Bool :=
  '0' ≤ c && c ≤ '9'

/-- `String.prototype.trim()`: drop whitespace at both ends. -/
def trimJS (s : List Char) : List Char :=
  ((s.dropWhile isWsJS).reverse.dropWhile isWsJS).reverse

/-- Case-insensitive prefix test (the `/i` regex flag; `Char.toLower` covers
the ASCII letters occurring in the keywords involved). -/
def ciIsPrefixOf : List Char → List Char → Bool
  | [], _ => true
  | _ :: _, [] => false
  | a :: as, b :: bs => (a.toLower == b.toLower) && ciIsPrefixOf as bs

/-- `String.prototype.includes(tok)`: `tok` occurs as a contiguous substring. -/
def containsTok (tok : List Char) : List Char → Bool
  | [] => tok.isEmpty
  | c :: rest => tok.isPrefixOf (c :: rest) || containsTok tok rest

/-- Index of the first exact occurrence of `tok` (`String.prototype.indexOf`),
`none` for `-1`. -/
def findTok (tok : List Char) : List Char → Option Nat
  | [] => if tok.isEmpty then some 0 else none
  | c :: rest =>
    if tok.isPrefixOf (c :: rest) then some 0
    else (findTok tok rest).map (· + 1)

/-- Index of the first case-insensitive occurrence of `tok`. -/
def findCiTok (tok : List Char) : List Char → Option Nat
  | [] => if tok.isEmpty then some 0 else none
  | c :: rest =>
    if ciIsPrefixOf tok (c :: rest) then some 0
    else (findCiTok tok rest).map (· + 1)

/-- One global-replace pass deleting every occurrence of `tok` followed by an
optional newline (regexes `/```sparql\n?/g` and `/```\n?/g`): left-to-right,
non-overlapping, the optional `\n` taken greedily, exactly as
`String.prototype.replace` with a `/g` regex.  `fuel` bounds the recursion;
the wrappers pass the length of the string, which suffices because every step
consumes at least one character. -/
def removeTokOpt (tok : List Char) : Nat → List Char → List Char
  | 0, s => s
  | fuel + 1, s =>
    if (tok ++ ['\n']).isPrefixOf s then removeTokOpt tok fuel (s.drop (tok.length + 1))
    else if tok.isPrefixOf s then removeTokOpt tok fuel (s.drop tok.length)
    else
      match s with
      | [] => []
      | c :: rest => c :: removeTokOpt tok fuel rest

def removeAllTok (tok : List Char) (s : List Char) : List Char :=
  removeTokOpt tok s.length s

/-! ## The sanitizer (`cleanSparqlResponse`) -/

def fenceSparqlTok : List Char := "```sparql".toList

def fenceTok : List Char := "```".toList

def prefixKw : List Char := "PREFIX".toList

def selectKw : List Char := "SELECT".toList

def limitKw : List Char := "LIMIT".toList

/-- Step 2 of the sanitizer: `.replace(/```sparql\n?/g, '').replace(/```\n?/g, '')`. -/
def stripFences (s : List Char) : List Char :=
  removeAllTok fenceTok (removeAllTok fenceSparqlTok s)

/-- Length of a match of `LIMIT\s+\d+` (case-insensitive) at the head of `s`:
`LIMIT`, then a maximal nonempty whitespace run, then a maximal nonempty digit
run.  (`\s+` is greedy and backtracking cannot help because a whitespace
character can never satisfy `\d`.) -/
def limitMatchLen (s : List Char) : Option Nat :=
  if ciIsPrefixOf limitKw s then
    let rest := s.drop 5
    let w := (rest.takeWhile isWsJS).length
    if w = 0 then none
    else
      let d := ((rest.drop w).takeWhile isDigitJS).length
      if d = 0 then none else some (5 + w + d)
  else none

/-- Position and length of the leftmost match of `LIMIT\s+\d+` in `s`. -/
def findLimit : List Char → Option (Nat × Nat)
  | [] => none
  | c :: rest =>
    match limitMatchLen (c :: rest) with
    | some len => some (0, len)
    | none => (findLimit rest).map (fun p => (p.1 + 1, p.2))

/-- Steps 3/4 extraction regex `/(KW[\s\S]*?LIMIT\s+\d+)/i`: leftmost
case-insensitive occurrence of the keyword, then (lazy `[\s\S]*?`) the first
`LIMIT\s+\d+` match starting at or after the end of the keyword; the match is
the substring up to the end of that limit clause.  (If the first keyword
occurrence has no limit clause after it, no later occurrence has one either,
so returning `none` then is equivalent to the regex engine's retry loop.)
The sanitizer applies `.trim()` to the captured group. -/
def extractKwLimit (kw : List Char) (s : List Char) : Option (List Char) :=
  match findCiTok kw s with
  | none => none
  | some p =>
    match findLimit ((s.drop p).drop kw.length) with
    | none => none
    | some (q, len) => some (trimJS ((s.drop p).take (kw.length + q + len)))

/-- Steps 3/4: try the `PREFIX`-anchored extraction, then the
`SELECT`-anchored one; keep the current text when both fail. -/
def step34 (s : List Char) : List Char :=
  match extractKwLimit prefixKw s with
  | some r => r
  | none =>
    match extractKwLimit selectKw s with
    | some r => r
    | none => s

/-- Step 5: `indexOf('PREFIX')` (case-sensitive); if it is positive, drop
everything before it. -/
def step5 (s : List Char) : List Char :=
  match findTok prefixKw s with
  | some f => if 0 < f then s.drop f else s
  | none => s

/-- Step 6: `match(/^([\s\S]*?LIMIT\s+\d+)/i)`; if a limit clause exists,
keep only the text up to the end of the first one. -/
def step6 (s : List Char) : List Char :=
  match findLimit s with
  | some (q, len) => s.take (q + len)
  | none => s

/-- The three default prefix declarations prepended when no `PREFIX` is
present (step 7). -/
def defaultPrefixBlock : List Char :=
  ("PREFIX dcat: <http://www.w3.org/ns/dcat#>\nPREFIX dct: <http://purl.org/dc/terms/>\nPREFIX foaf: <http://xmlns.com/foaf/0.1/>\n\n").toList

/-- Step 7: prepend the default prefix block when `includes('PREFIX')` is
false (case-sensitive). -/
def step7 (s : List Char) : List Char :=
  if containsTok prefixKw s then s else defaultPrefixBlock ++ s

/-- `replace(/(\s*)(LIMIT\s+\d+)/i, '\n}$1$2')` (first occurrence only):
the leftmost match starts at the first `LIMIT\s+\d+` occurrence minus the
maximal whitespace run immediately before it, and the replacement inserts
`"\n}"` at that point.  When there is no limit clause the text is unchanged. -/
def insertCloseBrace (s : List Char) : List Char :=
  match findLimit s with
  | none => s
  | some (q, _) =>
    let w := ((s.take q).reverse.takeWhile isWsJS).length
    (s.take (q - w)) ++ '\n' :: '\x7d' :: (s.drop (q - w))

/-- Step 8: when open braces outnumber close braces, insert a single closing
brace before the (first) limit clause. -/
def step8 (s : List Char) : List Char :=
  if s.count '\x7b' > s.count '\x7d' then insertCloseBrace s else s

/-- Stages 1-7 of `cleanSparqlResponse` (everything before the brace repair). -/
def sanitizeStages (r : List Char) : List Char :=
  step7 (step6 (step5 (step34 (stripFences (trimJS r)))))

/-- `cleanSparqlResponse` from the route handler: trim, strip code fences,
extract `PREFIX…LIMIT n` (else `SELECT…LIMIT n`), drop text before `PREFIX`
and after the limit clause, add default prefixes when absent, and repair a
missing closing brace. -/
def cleanSparqlResponse (r : List Char) : List Char :=
  step8 (sanitizeStages r)

/-! ## Retrieval layer: data model

Embeddings are decimal JSON floats, modelled as `List ℚ`.  The retrieval
pipeline is stated over a generic linearly ordered score type `σ`, which
models the program exactly on runs where every similarity score is a finite
number; the non-finite (`NaN`) scores produced by zero-magnitude embeddings
satisfy no linear order and are modelled separately (`cosineSimJS` below,
with `none` for `NaN`). -/

structure Example where
  query : List Char
  sparql : List Char
deriving DecidableEq

structure DocMeta where
  type : List Char
  category : Option (List Char)
  difficulty : Option (List Char)
deriving DecidableEq

structure Document where
  id : List Char
  content : List Char
  meta : DocMeta
  embedding : Option (List ℚ)
deriving DecidableEq

structure VectorStore where
  documents : List Document
deriving DecidableEq

structure Retrieved (σ : Type) where
  document : Document
  score : σ
deriving DecidableEq

structure SearchFilter where
  type : Option (List Char)
  category : Option (List Char)
  difficulty : Option (List Char)
deriving DecidableEq

inductive ProviderErr where
  | unavailable : ProviderErr
  | authError : ProviderErr
deriving DecidableEq

inductive SearchErr where
  | provider : ProviderErr → SearchErr
  | dimMismatch : SearchErr
deriving DecidableEq

/-! ## Keyword fallback retriever (`getRelevantExamples`)

The rule table maps literal lowercase substrings to 0-based indices into the
loaded example sequence.  `loadExamples()` reads a file; the example sequence
is passed as the `allExamples` parameter.  A JS `Set<number>` preserves
insertion order and ignores duplicate adds; it is modelled by `addIdx` on a
duplicate-free list.  `allExamples[idx]` for an out-of-range `idx` is the JS
`undefined`, modelled as `Option.none` via `List.get?`. -/

def keywordRules : List (List (List Char) × List Nat) :=
  [(["todos".toList, "listar".toList, "dame".toList], [0]),
   (["csv".toList, "formato".toList, "json".toList, "xml".toList], [1, 6]),
   (["salud".toList, "sanidad".toList, "sanitario".toList], [2, 5]),
   (["cuantos".toList, "total".toList, "count".toList, "contar".toList], [3]),
   (["fecha".toList, "año".toList, "2023".toList, "2024".toList, "publicado".toList,
     "reciente".toList], [4, 8]),
   (["ministerio".toList, "gobierno".toList, "organismo".toList, "publicador".toList], [5]),
   (["categoria".toList, "tema".toList, "medio ambiente".toList], [7]),
   (["licencia".toList, "creative commons".toList], [9])]

def addIdx (l : List Nat) (i : Nat) : List Nat :=
  if l.contains i then l else l ++ [i]

/-- Processing of one rule: when any of its terms occurs in the lowercased
query, add its example indices, skipping those out of range of the loaded
example sequence. -/
def ruleStep (allLen : Nat) (queryLower : List Char) (acc : List Nat)
    (rule : List (List Char) × List Nat) : List Nat :=
  if rule.1.any (fun t => containsTok t queryLower) then
    rule.2.foldl (fun a idx => if idx < allLen then addIdx a idx else a) acc
  else acc

def selectedIdxs (allLen : Nat) (queryLower : List Char) : List Nat :=
  keywordRules.foldl (ruleStep allLen queryLower) []

/-- `getRelevantExamples(query, k)` with the loaded example sequence made
explicit.  When no rule matched, the default indices `0, 1, 2` are added
without the range guard, exactly as in the source; `Char.toLower` models
`toLowerCase` on the ASCII range covered by the rule terms. -/
def getRelevantExamples (allExamples : List Example) (query : List Char) (k : Nat) :
    List (Option Example) :=
  let sel := selectedIdxs allExamples.length (query.map Char.toLower)
  let sel' := if sel.isEmpty then addIdx (addIdx (addIdx sel 0) 1) 2 else sel
  (sel'.take k).map (fun idx => allExamples.get? idx)

/-! ## Similarity scorer (`cosineSimilarity`)

`cosineSimilarity` throws when the vector lengths differ; otherwise it
returns `dot / (|a| * |b|)` in JS float arithmetic.  Rounding is idealized to
exact real arithmetic, but the structurally distinct outcomes are modelled
explicitly: when either magnitude is zero, the JS division by zero produces
`NaN`/`±Infinity` — a non-finite value, not a number in `[-1, 1]` — which is
`CosResult.nonFinite` here. -/

def dotProd (a b : List ℚ) : ℚ :=
  (a.zipWith (fun x y => x * y) b).sum

def sumSq (a : List ℚ) : ℚ :=
  (a.map (fun x => x * x)).sum

inductive CosResult where
  | dimMismatch : CosResult
  | nonFinite : CosResult
  | val : ℝ → CosResult

noncomputable def cosineSimilarity (a b : List ℚ) : CosResult :=
  if a.length ≠ b.length then .dimMismatch
  else if sumSq a = 0 ∨ sumSq b = 0 then .nonFinite
  else .val ((dotProd a b : ℝ) / (Real.sqrt (sumSq a) * Real.sqrt (sumSq b)))

/-- The score value the cosine scorer hands to the sort, as a JS number:
`some r` for the finite cosine value, `none` for the `NaN` the JS division
produces when either magnitude is zero.  (The length-mismatch throw never
reaches the sort — the surrounding `catch` turns it into an empty result —
so it is not a score value.) -/
noncomputable def cosineSimJS (a b : List ℚ) : Option ℝ :=
  if sumSq a = 0 ∨ sumSq b = 0 then none
  else some ((dotProd a b : ℝ) / (Real.sqrt (sumSq a) * Real.sqrt (sumSq b)))

/-- JS `x <= y` on scores: false whenever either side is `NaN` (`none`). -/
def jsLeNum (x y : Option ℝ) : Prop :=
  ∃ rx ry, x = some rx ∧ y = some ry ∧ rx ≤ ry

/-! ## Semantic retriever (`searchKnowledgeBase`)

The retrieval pipeline is stated over a generic linearly ordered score type
`σ` and scorer `sim`.  On runs where every cosine score is finite the
program is the instance `σ := ℝ` with the finite cosine value, and
`Array.prototype.sort` with comparator `(a, b) => b.score - a.score` is a
stable descending sort by score, computed exactly by `List.insertionSort`
with `b.score ≤ a.score`.  When some score is `NaN` (zero-magnitude
embedding, `cosineSimJS`), the comparator returns `NaN`, which the ES
`SortCompare` operation coerces to `+0`: the comparator is then
inconsistent and the sort order is implementation-defined (though still a
permutation of the input) — that case satisfies no `LinearOrder` and is the
subject of the C7 counterexample below.
`embed` is the external embedding provider (`model.embedQuery`), which can
fail; the length precheck models the `DimensionMismatch` throw raised from
inside the scoring `map` (the surrounding `catch` discards the partial work,
so hoisting the check out of the loop is observationally equal). -/

def sortRel {σ : Type} [LinearOrder σ] : Retrieved σ → Retrieved σ → Prop :=
  fun a b => b.score ≤ a.score

instance {σ : Type} [LinearOrder σ] : DecidableRel (α := Retrieved σ) sortRel :=
  fun a b => (inferInstance : Decidable (b.score ≤ a.score))

instance {σ : Type} [LinearOrder σ] : IsTotal (Retrieved σ) sortRel :=
  ⟨fun a b => le_total b.score a.score⟩

instance {σ : Type} [LinearOrder σ] : IsTrans (Retrieved σ) sortRel :=
  ⟨fun _ _ _ h1 h2 => le_trans h2 h1⟩

def sortByScore {σ : Type} [LinearOrder σ] (l : List (Retrieved σ)) : List (Retrieved σ) :=
  List.insertionSort sortRel l

/-- The metadata filter: each present field must match exactly (a present
`category`/`difficulty` filter field also fails documents lacking that
metadata field, as `undefined !== value` in JS). -/
def matchesFilter (f : SearchFilter) (d : Document) : Bool :=
  (match f.type with | none => true | some t => d.meta.type == t) &&
  (match f.category with | none => true | some c => d.meta.category == some c) &&
  (match f.difficulty with | none => true | some df => d.meta.difficulty == some df)

def applyFilter (f : Option SearchFilter) (docs : List Document) : List Document :=
  match f with
  | none => docs
  | some ff => docs.filter (matchesFilter ff)

/-- The candidate documents of a search: metadata-filtered documents that
carry an embedding (`filter(doc => doc.embedding)`). -/
def candidateDocs (store : Option VectorStore) (f : Option SearchFilter) : List Document :=
  match store with
  | none => []
  | some st => (applyFilter f st.documents).filter (fun d => d.embedding.isSome)

def scoredDocs {σ : Type} (sim : List ℚ → List ℚ → σ) (qe : List ℚ)
    (docs : List Document) : List (Retrieved σ) :=
  docs.map (fun d => ⟨d, sim qe (d.embedding.getD [])⟩)

/-- The `try` body of `searchKnowledgeBase` (plus the empty-index early
return, which precedes the `try`). -/
def searchKBRun {σ : Type} [LinearOrder σ] (sim : List ℚ → List ℚ → σ)
    (store : Option VectorStore) (embed : List Char → Except ProviderErr (List ℚ))
    (query : List Char) (k : Nat) (f : Option SearchFilter) :
    Except SearchErr (List (Retrieved σ)) :=
  match store with
  | none => .ok []
  | some st =>
    if st.documents.isEmpty then .ok []
    else
      match embed query with
      | .error e => .error (.provider e)
      | .ok qe =>
        let cands := candidateDocs (some st) f
        if cands.all (fun d => (d.embedding.getD []).length == qe.length) then
          .ok ((sortByScore (scoredDocs sim qe cands)).take k)
        else .error .dimMismatch

/-- `searchKnowledgeBase`: the `catch` converts every internal failure into
the empty result, so the function is total. -/
def searchKnowledgeBase {σ : Type} [LinearOrder σ] (sim : List ℚ → List ℚ → σ)
    (store : Option VectorStore) (embed : List Char → Except ProviderErr (List ℚ))
    (query : List Char) (k : Nat) (f : Option SearchFilter) : List (Retrieved σ) :=
  match searchKBRun sim store embed query k f with
  | .ok r => r
  | .error _ => []

def typeOnlyFilter (t : List Char) : Option SearchFilter :=
  some ⟨some t, none, none⟩

/-! ## Context aggregator (`getContextForQuery`) -/

structure KBContext where
  vocabularies : List (List Char)
  patterns : List (List Char)
  examples : List (List Char)
  totalDocs : Nat
  types : List (List Char × Nat)

/-- One step of the `reduce` that tallies document types (a JS object used as
a map, with insertion-ordered keys, modelled as an association list). -/
def bumpCount (acc : List (List Char × Nat)) (t : List Char) : List (List Char × Nat) :=
  if acc.any (fun p => p.1 == t) then
    acc.map (fun p => if p.1 == t then (p.1, p.2 + 1) else p)
  else acc ++ [(t, 1)]

def typeTally {σ : Type} (l : List (Retrieved σ)) : List (List Char × Nat) :=
  l.foldl (fun acc r => bumpCount acc r.document.meta.type) []

/-- `getContextForQuery`: three searches (`vocabulary` k=2, `pattern` k=2,
`example` k=3) merged.  Each search is total (it catches its own failures),
so the aggregator's own `try/catch` is never driven by retrieval failures
and the aggregator is a total function. -/
def getContextForQuery {σ : Type} [LinearOrder σ] (sim : List ℚ → List ℚ → σ)
    (store : Option VectorStore) (embed : List Char → Except ProviderErr (List ℚ))
    (query : List Char) : KBContext :=
  let voc := searchKnowledgeBase sim store embed query 2 (typeOnlyFilter ("vocabulary".toList))
  let pat := searchKnowledgeBase sim store embed query 2 (typeOnlyFilter ("pattern".toList))
  let exs := searchKnowledgeBase sim store embed query 3 (typeOnlyFilter ("example".toList))
  let all := voc ++ pat ++ exs
  { vocabularies := voc.map (fun r => r.document.content)
    patterns := pat.map (fun r => r.document.content)
    examples := exs.map (fun r => r.document.content)
    totalDocs := all.length
    types := typeTally all }

/-! ## Effect footprint of a search call (for the frame claim)

`searchKnowledgeBase` never reads or writes the process-wide
`embeddingsCache` (that cache is consulted only by
`getRelevantExamplesWithEmbeddings`, and only for the *example* queries);
it calls `model.embedQuery(query)` unconditionally once the index is known
to be non-empty.  The wrapper below pairs the pure result with the cache
after the call and the list of texts sent to the embedding provider. -/

abbrev EmbCache : Type := List (List Char × List ℚ)

def lookupCache (cache : EmbCache) (q : List Char) : Option (List ℚ) :=
  match cache.find? (fun p => p.1 == q) with
  | some p => some p.2
  | none => none

def searchKnowledgeBaseSt {σ : Type} [LinearOrder σ] (sim : List ℚ → List ℚ → σ)
    (cache : EmbCache) (store : Option VectorStore)
    (embed : List Char → Except ProviderErr (List ℚ)) (query : List Char) (k : Nat)
    (f : Option SearchFilter) :
    List (Retrieved σ) × EmbCache × List (List Char) :=
  match store with
  | none => ([], cache, [])
  | some st =>
    if st.documents.isEmpty then ([], cache, [])
    else (searchKnowledgeBase sim store embed query k f, cache, [query])

/-- Provider calls made by the example loop of
`getRelevantExamplesWithEmbeddings` (success path): the user query is always
embedded; an example's query is embedded only when it is not in the cache.
All cache membership tests read the cache as it was when the loop started
(the `Promise.all` callbacks test the cache before their first `await`). -/
def relevantExamplesEmbedCalls (cache : EmbCache) (query : List Char)
    (allExamples : List Example) : List (List Char) :=
  if allExamples.isEmpty then []
  else query :: (allExamples.filter
    (fun e => !(lookupCache cache e.query).isSome)).map (fun e => e.query)

deriving instance DecidableEq for Except

/-! ## Concrete inputs used by counterexamples and witnesses -/

/-- The raw-completion scenario from the spec (missing closing brace, missing
prefixes, no limit clause). -/
def scenarioInput : List Char :=
  "Here you go:\n```sparql\nSELECT ?d WHERE \x7b ?d a Dataset\n```".toList

def selectBodyTok : List Char := "SELECT ?d WHERE \x7b ?d a Dataset".toList

/-- What the sanitizer actually produces on `scenarioInput`. -/
def scenarioExpected : List Char :=
  defaultPrefixBlock ++ ("Here you go:\nSELECT ?d WHERE \x7b ?d a Dataset\n").toList

/-- A query whose single missing closing brace is repaired (it has a limit
clause). -/
def braceRepairW : List Char := "PREFIX a \x7b LIMIT 5".toList

/-- A canonical well-formed query: starts with `PREFIX`, brace-balanced, no
code fence, first limit clause at the very end. -/
def xGoodW : List Char :=
  "PREFIX a: <b>\nSELECT * WHERE \x7b ?s ?p ?o \x7d\nLIMIT 10".toList

/-- Well-formed by the claim's conditions (starts with a prefix declaration,
ends in a limit clause, brace-balanced) but with an internal limit clause. -/
def internalLimitW : List Char :=
  "PREFIX a: <b> SELECT * WHERE \x7b \x7b x LIMIT 5 \x7d \x7d LIMIT 9".toList

/-- A concrete computable scorer used to instantiate the generic pipeline in
witnesses (`σ := ℚ`). -/
def dotSim (a b : List ℚ) : ℚ := dotProd a b

/-- A scorer whose kernel evaluation is cheap (no rational arithmetic), used
by witnesses that must evaluate a successful search: the score of a document
is the numerator of the first entry of its embedding. -/
def numSim (_a b : List ℚ) : ℕ := (b.getD 0 0).num.toNat

def wQ : List Char := "q".toList

def wDoc1 : Document :=
  ⟨"d1".toList, "c1".toList, ⟨"vocabulary".toList, none, none⟩, some [1]⟩

def wDoc2 : Document :=
  ⟨"d2".toList, "c2".toList, ⟨"vocabulary".toList, none, none⟩, some [2]⟩

def wStore : VectorStore := ⟨[wDoc1, wDoc2]⟩

/-- A document with a zero-magnitude embedding: its cosine score against any
query embedding is the JS `NaN`. -/
def zDoc : Document :=
  ⟨"dz".toList, "cz".toList, ⟨"vocabulary".toList, none, none⟩, some [0]⟩

def embedOkW : List Char → Except ProviderErr (List ℚ) := fun _ => .ok [1]

def embedFailW : List Char → Except ProviderErr (List ℚ) := fun _ => .error .unavailable

def exW : Example := ⟨"a".toList, "b".toList⟩

def exW2 : Example := ⟨"c".toList, "d".toList⟩

def exW3 : Example := ⟨"e".toList, "f".toList⟩

def wCache : EmbCache := [(wQ, [1])]

def wCacheE : EmbCache := [(exW.query, [2])]

/-! ## Helper lemmas: keyword fallback index bounds -/

theorem addIdx_bound {L : Nat} {l : List Nat} (hl : ∀ i ∈ l, i < L) {j : Nat}
    (hj : j < L) : ∀ i ∈ addIdx l j, i < L := by
  intro i hi
  unfold addIdx at hi
  split at hi
  · exact hl i hi
  · rcases List.mem_append.mp hi with h | h
    · exact hl i h
    · simp only [List.mem_singleton] at h
      subst h
      exact hj

theorem foldl_guard_bound {L : Nat} :
    ∀ (idxs : List Nat) (acc : List Nat), (∀ i ∈ acc, i < L) →
      ∀ i ∈ idxs.foldl (fun a idx => if idx < L then addIdx a idx else a) acc, i < L := by
  intro idxs
  induction idxs with
  | nil => intro acc hacc; simpa using hacc
  | cons j t ih =>
    intro acc hacc i hi
    simp only [List.foldl_cons] at hi
    refine ih _ ?_ i hi
    by_cases hj : j < L
    · simpa [hj] using addIdx_bound hacc hj
    · simpa [hj] using hacc

theorem ruleStep_bound {L : Nat} {ql : List Char} {acc : List Nat}
    (hacc : ∀ i ∈ acc, i < L) (rule : List (List Char) × List Nat) :
    ∀ i ∈ ruleStep L ql acc rule, i < L := by
  intro i hi
  unfold ruleStep at hi
  split at hi
  · exact foldl_guard_bound _ _ hacc i hi
  · exact hacc i hi

theorem foldl_rules_bound {L : Nat} {ql : List Char} :
    ∀ (rules : List (List (List Char) × List Nat)) (acc : List Nat),
      (∀ i ∈ acc, i < L) → ∀ i ∈ rules.foldl (ruleStep L ql) acc, i < L := by
  intro rules
  induction rules with
  | nil => intro acc hacc; simpa using hacc
  | cons r t ih =>
    intro acc hacc i hi
    simp only [List.foldl_cons] at hi
    exact ih _ (ruleStep_bound hacc r) i hi

theorem selectedIdxs_bound {L : Nat} {ql : List Char} :
    ∀ i ∈ selectedIdxs L ql, i < L :=
  foldl_rules_bound keywordRules [] (by simp)

/-! ## Claim theorems -/

/-- C5: for every query, k, and filter, when the Knowledge Base Index is
absent (`loadVectorStore` returned null) or has zero documents, the Semantic
Retriever returns the empty sequence (it is a total function, so no error is
raised), and the Context Aggregator's `totalDocs` is 0. -/
theorem c5_empty_index_empty_results {σ : Type} [LinearOrder σ]
    (sim : List ℚ → List ℚ → σ) (embed : List Char → Except ProviderErr (List ℚ))
    (query : List Char) (k : Nat) (f : Option SearchFilter) :
    searchKnowledgeBase sim none embed query k f = [] ∧
    searchKnowledgeBase sim (some ⟨[]⟩) embed query k f = [] ∧
    (getContextForQuery sim none embed query).totalDocs = 0 ∧
    (getContextForQuery sim (some ⟨[]⟩) embed query).totalDocs = 0 :=
  ⟨rfl, rfl, rfl, rfl⟩

/-- C10: for every query (and any index, provider outcome, and scorer), the
Context Aggregator's `totalDocs` equals the sum of the lengths of the three
sequences it returns. -/
theorem c10_totaldocs_sum {σ : Type} [LinearOrder σ] (sim : List ℚ → List ℚ → σ)
    (store : Option VectorStore) (embed : List Char → Except ProviderErr (List ℚ))
    (query : List Char) :
    (getContextForQuery sim store embed query).totalDocs =
      (getContextForQuery sim store embed query).vocabularies.length +
      (getContextForQuery sim store embed query).patterns.length +
      (getContextForQuery sim store embed query).examples.length := by
  simp only [getContextForQuery, List.length_append, List.length_map]

/-- C6: the aggregator never raises for retrieval failures (it is a total
function of its inputs): each of the three sequences it returns is exactly
the corresponding category search's result, and any search call whose
internal run fails (provider error, dimension mismatch) contributes the
empty sequence — so one failing call cannot disturb the other two. -/
theorem c6_aggregator_degrades {σ : Type} [LinearOrder σ] (sim : List ℚ → List ℚ → σ)
    (store : Option VectorStore) (embed : List Char → Except ProviderErr (List ℚ))
    (query : List Char) :
    (getContextForQuery sim store embed query).vocabularies =
      (searchKnowledgeBase sim store embed query 2
        (typeOnlyFilter ("vocabulary".toList))).map (fun r => r.document.content) ∧
    (getContextForQuery sim store embed query).patterns =
      (searchKnowledgeBase sim store embed query 2
        (typeOnlyFilter ("pattern".toList))).map (fun r => r.document.content) ∧
    (getContextForQuery sim store embed query).examples =
      (searchKnowledgeBase sim store embed query 3
        (typeOnlyFilter ("example".toList))).map (fun r => r.document.content) ∧
    (∀ (k : Nat) (f : Option SearchFilter) (e : SearchErr),
      searchKBRun sim store embed query k f = .error e →
      searchKnowledgeBase sim store embed query k f = []) := by
  refine ⟨rfl, rfl, rfl, ?_⟩
  intro k f e h
  simp [searchKnowledgeBase, h]

theorem c6_aggregator_degrades_witness :
    searchKnowledgeBase dotSim (some wStore) embedFailW wQ 2 none = [] :=
  (c6_aggregator_degrades dotSim (some wStore) embedFailW wQ).2.2.2 2 none
    (.provider .unavailable) (by decide)

/-- C2 counterexample: with a single loaded example and a query matching no
rule, the default branch adds the unguarded indices 0, 1, 2, and the result
contains two out-of-range placeholder elements (`undefined` in JS, `none`
here) — so not every element of the result is an example actually present in
the loaded sequence. -/
theorem c2_default_branch_placeholder :
    getRelevantExamples [exW] ("z".toList) 3 = [some exW, none, none] ∧
    ¬ (∀ e ∈ getRelevantExamples [exW] ("z".toList) 3, ∃ x ∈ [exW], e = some x) := by
  constructor
  · decide
  · decide

/-- C2 (amended): rule indices out of range of the loaded example sequence
are skipped, but the default branch (no rule matched) adds indices 0, 1, 2
without a range guard, so the no-placeholder property holds whenever at
least three examples are loaded: every element of the result is then an
example present in the loaded sequence.  (With fewer than three loaded
examples and no rule match, the result contains `undefined` placeholders,
as the counterexample shows.) -/
theorem c2_fallback_in_range (allExamples : List Example) (query : List Char) (k : Nat)
    (h3 : 3 ≤ allExamples.length) :
    ∀ e ∈ getRelevantExamples allExamples query k, ∃ x ∈ allExamples, e = some x := by
  intro e he
  unfold getRelevantExamples at he
  simp only [List.mem_map] at he
  obtain ⟨idx, hidx, rfl⟩ := he
  have hidxsel := List.take_subset _ _ hidx
  have hlt : idx < allExamples.length := by
    rcases hempty : (selectedIdxs allExamples.length (query.map Char.toLower)).isEmpty with hf | ht
    · simp only [hempty, if_neg Bool.false_ne_true] at hidxsel
      exact selectedIdxs_bound idx hidxsel
    · rw [hempty] at hidxsel
      simp only [if_pos rfl] at hidxsel
      rw [List.isEmpty_iff.mp hempty] at hidxsel
      have : idx ∈ ([0, 1, 2] : List Nat) := by simpa [addIdx] using hidxsel
      simp only [List.mem_cons, List.mem_singleton, List.not_mem_nil] at this
      rcases this with rfl | rfl | rfl | hcontra
      · omega
      · omega
      · omega
      · exact absurd hcontra (by simp)
  refine ⟨allExamples.get ⟨idx, hlt⟩, List.get_mem _ _ hlt, ?_⟩
  rw [List.get?_eq_get hlt]

theorem c2_fallback_in_range_witness :
    3 ≤ ([exW, exW2, exW3] : List Example).length ∧
    ∀ e ∈ getRelevantExamples [exW, exW2, exW3] ("z".toList) 3,
      ∃ x ∈ ([exW, exW2, exW3] : List Example), e = some x :=
  ⟨by decide, c2_fallback_in_range [exW, exW2, exW3] ("z".toList) 3 (by decide)⟩

theorem sortByScore_length {σ : Type} [LinearOrder σ] (l : List (Retrieved σ)) :
    (sortByScore l).length = l.length :=
  (List.perm_insertionSort sortRel l).length_eq

/-- C8 counterexample: when the embedding provider fails, the search returns
the empty sequence even though qualifying documents (with an embedding,
passing the filter) exist — so "returns fewer than k only when fewer than k
qualifying documents exist" fails as stated. -/
theorem c8_fewer_without_exhaustion :
    (searchKnowledgeBase dotSim (some wStore) embedFailW wQ 1 none).length < 1 ∧
    ¬ (candidateDocs (some wStore) none).length < 1 := by
  constructor
  · decide
  · decide

/-- C8 (amended): for every query, k ≥ 1, and filter, the Semantic Retriever
returns at most k RetrievedDocuments (unconditionally — failures yield the
empty sequence), and when the internal run succeeds it returns fewer than k
only when fewer than k documents carry an embedding and satisfy the filter;
when the run fails (provider error, dimension mismatch) it returns the empty
sequence regardless of how many qualifying documents exist. -/
theorem c8_at_most_k {σ : Type} [LinearOrder σ] (sim : List ℚ → List ℚ → σ)
    (store : Option VectorStore) (embed : List Char → Except ProviderErr (List ℚ))
    (query : List Char) (k : Nat) (f : Option SearchFilter) (hk : 1 ≤ k) :
    (searchKnowledgeBase sim store embed query k f).length ≤ k ∧
    (∀ res, searchKBRun sim store embed query k f = .ok res → res.length < k →
      (candidateDocs store f).length < k) := by
  constructor
  · unfold searchKnowledgeBase
    rcases hrun : searchKBRun sim store embed query k f with e | res
    · simpa using hk
    · unfold searchKBRun at hrun
      rcases store with _ | st
      · simp only [Except.ok.injEq] at hrun
        subst hrun; simpa using hk
      · by_cases hemp : st.documents.isEmpty
        · simp only [hemp, if_true, Except.ok.injEq] at hrun
          subst hrun; simpa using hk
        · simp only [hemp, if_false, Bool.false_eq_true] at hrun
          rcases hq : embed query with e | qe
          · rw [hq] at hrun; exact absurd hrun (by simp)
          · rw [hq] at hrun
            by_cases hdim : (candidateDocs (some st) f).all
                (fun d => (d.embedding.getD []).length == qe.length)
            · simp only [hdim, if_true, Except.ok.injEq] at hrun
              subst hrun
              simpa using List.length_take_le k _
            · simp only [hdim, if_false, Bool.false_eq_true] at hrun
              exact absurd hrun (by simp)
  · intro res hrun hres
    unfold searchKBRun at hrun
    rcases store with _ | st
    · simp [candidateDocs]; omega
    · by_cases hemp : st.documents.isEmpty
      · have hdocs : st.documents = [] := List.isEmpty_iff.mp hemp
        simp [candidateDocs, applyFilter, hdocs]
        rcases f with _ | ff <;> simp <;> omega
      · simp only [hemp, if_false, Bool.false_eq_true] at hrun
        rcases hq : embed query with e | qe
        · rw [hq] at hrun; exact absurd hrun (by simp)
        · rw [hq] at hrun
          by_cases hdim : (candidateDocs (some st) f).all
              (fun d => (d.embedding.getD []).length == qe.length)
          · simp only [hdim, if_true, Except.ok.injEq] at hrun
            subst hrun
            rw [List.length_take, sortByScore_length] at hres
            simp only [scoredDocs, List.length_map] at hres
            omega
          · simp only [hdim, if_false, Bool.false_eq_true] at hrun
            exact absurd hrun (by simp)

theorem c8_at_most_k_witness :
    (searchKnowledgeBase numSim (some wStore) embedOkW wQ 5 none).length ≤ 5 ∧
    (candidateDocs (some wStore) none).length < 5 :=
  ⟨(c8_at_most_k numSim (some wStore) embedOkW wQ 5 none (by decide)).1,
   (c8_at_most_k numSim (some wStore) embedOkW wQ 5 none (by decide)).2
     (searchKnowledgeBase numSim (some wStore) embedOkW wQ 5 none) (by decide) (by decide)⟩

/-- C9 counterexample: even when the process-wide embedding cache already
holds an embedding for the query string, a semantic search still sends the
query to the embedding provider — `searchKnowledgeBase` never consults the
cache (the cache is only read by the example loop of
`getRelevantExamplesWithEmbeddings`). -/
theorem c9_provider_called_despite_cache :
    (lookupCache wCache wQ).isSome = true ∧
    wQ ∈ (searchKnowledgeBaseSt dotSim wCache (some wStore) embedOkW wQ 5 none).2.2 := by
  constructor
  · decide
  · decide

/-- C9 (amended): a semantic search call neither reads nor writes the
embedding cache — the cache after the call is unchanged, and the provider
calls made do not depend on the cache at all; whenever the index is
non-empty the provider is invoked exactly once, on the query string (even on
a cache hit).  The cache-hit skipping described by the claim belongs to the
example-embedding loop of `getRelevantExamplesWithEmbeddings`: an example
whose query is already cached is not sent to the provider there. -/
theorem c9_search_cache_footprint {σ : Type} [LinearOrder σ]
    (sim : List ℚ → List ℚ → σ) (cache cache' : EmbCache) (store : Option VectorStore)
    (embed : List Char → Except ProviderErr (List ℚ)) (query : List Char) (k : Nat)
    (f : Option SearchFilter) (allExamples : List Example) :
    (searchKnowledgeBaseSt sim cache store embed query k f).2.1 = cache ∧
    (searchKnowledgeBaseSt sim cache store embed query k f).2.2 =
      (searchKnowledgeBaseSt sim cache' store embed query k f).2.2 ∧
    (searchKnowledgeBaseSt sim cache store embed query k f).1 =
      searchKnowledgeBase sim store embed query k f ∧
    (∀ st, store = some st → st.documents ≠ [] →
      (searchKnowledgeBaseSt sim cache store embed query k f).2.2 = [query]) ∧
    (∀ e ∈ allExamples, (lookupCache cache e.query).isSome = true →
      e.query ∉ (relevantExamplesEmbedCalls cache query allExamples).drop 1) := by
  refine ⟨?_, ?_, ?_, ?_, ?_⟩
  · rcases store with _ | st
    · rfl
    · unfold searchKnowledgeBaseSt
      by_cases h : st.documents.isEmpty <;> simp [h]
  · rcases store with _ | st
    · rfl
    · unfold searchKnowledgeBaseSt
      by_cases h : st.documents.isEmpty <;> simp [h]
  · rcases store with _ | st
    · unfold searchKnowledgeBaseSt searchKnowledgeBase searchKBRun
      rfl
    · unfold searchKnowledgeBaseSt
      by_cases h : st.documents.isEmpty <;>
        simp [h, searchKnowledgeBase, searchKBRun]
  · intro st hst hdocs
    subst hst
    unfold searchKnowledgeBaseSt
    have h : st.documents.isEmpty = false := by
      rcases hd : st.documents.isEmpty with _ | _
      · rfl
      · exact absurd (List.isEmpty_iff.mp hd) hdocs
    simp [h]
  · intro e he hcached hmem
    unfold relevantExamplesEmbedCalls at hmem
    by_cases hemp : allExamples.isEmpty
    · simp [hemp] at hmem
    · simp only [hemp, if_neg Bool.false_ne_true, List.drop_succ_cons, List.drop_zero] at hmem
      obtain ⟨x, hx, hxq⟩ := List.mem_map.mp hmem
      have hxf := (List.mem_filter.mp hx).2
      rw [hxq] at hxf
      rw [hcached] at hxf
      simp at hxf

theorem c9_search_cache_footprint_witness :
    (searchKnowledgeBaseSt dotSim wCache (some wStore) embedOkW wQ 5 none).2.2 = [wQ] ∧
    exW.query ∉ (relevantExamplesEmbedCalls wCacheE wQ [exW]).drop 1 :=
  ⟨(c9_search_cache_footprint dotSim wCache wCache (some wStore) embedOkW wQ 5 none
      [exW]).2.2.2.1 wStore rfl (by decide),
   (c9_search_cache_footprint dotSim wCacheE wCacheE (some wStore) embedOkW wQ 5 none
      [exW]).2.2.2.2 exW (by decide) (by decide)⟩

/-! ## Helper lemmas: stability of the score sort -/

theorem filter_orderedInsert_score {σ : Type} [LinearOrder σ] (x : Retrieved σ)
    (m : List (Retrieved σ)) (s : σ) :
    (List.orderedInsert sortRel x m).filter (fun d => decide (d.score = s)) =
      ((x :: m).filter (fun d => decide (d.score = s))) := by
  rw [List.orderedInsert_eq_take_drop]
  rw [List.filter_append _ _]
  by_cases hx : x.score = s
  · have htw : (m.takeWhile fun b => decide ¬ sortRel x b).filter
        (fun d => decide (d.score = s)) = [] := by
      rw [List.filter_eq_nil_iff]
      intro y hy
      have h1 := List.mem_takeWhile_imp hy
      simp only [decide_eq_true_eq] at h1 ⊢
      intro hys
      exact h1 (by unfold sortRel; rw [hys, hx])
    rw [htw, List.nil_append]
    rw [List.filter_cons, List.filter_cons]
    have hpx : (decide (x.score = s)) = true := by simp [hx]
    rw [hpx]
    simp only [if_true]
    congr 1
    conv_rhs =>
      rw [← List.takeWhile_append_dropWhile (fun b => decide ¬ sortRel x b) m]
    rw [List.filter_append _ _, htw, List.nil_append]
  · rw [List.filter_cons, List.filter_cons]
    have hpx : (decide (x.score = s)) = false := by simp [hx]
    rw [hpx]
    simp only [Bool.false_eq_true, if_false]
    conv_rhs =>
      rw [← List.takeWhile_append_dropWhile (fun b => decide ¬ sortRel x b) m]
    rw [List.filter_append _ _]

theorem filter_sortByScore {σ : Type} [LinearOrder σ] (l : List (Retrieved σ)) (s : σ) :
    (sortByScore l).filter (fun d => decide (d.score = s)) =
      l.filter (fun d => decide (d.score = s)) := by
  induction l with
  | nil => rfl
  | cons x t ih =>
    show (List.orderedInsert sortRel x (sortByScore t)).filter _ = _
    rw [filter_orderedInsert_score, List.filter_cons, List.filter_cons, ih]

theorem filter_take_isPrefix {α : Type} (l : List α) (p : α → Bool) (k : Nat) :
    (l.take k).filter p <+: l.filter p := by
  conv_rhs => rw [← List.take_append_drop k l]
  rw [List.filter_append _ _]
  exact ⟨(l.drop k).filter p, rfl⟩

/-- The search result is either empty or the k-truncated stable sort of the
scored candidates. -/
theorem search_cases {σ : Type} [LinearOrder σ] (sim : List ℚ → List ℚ → σ)
    (store : Option VectorStore) (embed : List Char → Except ProviderErr (List ℚ))
    (query : List Char) (k : Nat) (f : Option SearchFilter) :
    searchKnowledgeBase sim store embed query k f = [] ∨
    ∃ qe, embed query = .ok qe ∧
      searchKnowledgeBase sim store embed query k f =
        (sortByScore (scoredDocs sim qe (candidateDocs store f))).take k := by
  unfold searchKnowledgeBase searchKBRun
  rcases store with _ | st
  · exact Or.inl rfl
  · by_cases hemp : st.documents.isEmpty
    · simp only [hemp, if_true]
      exact Or.inl trivial
    · simp only [hemp, Bool.false_eq_true, if_false]
      rcases hq : embed query with e | qe
      · exact Or.inl rfl
      · by_cases hdim : (candidateDocs (some st) f).all
            (fun d => (d.embedding.getD []).length == qe.length)
        · simp only [hdim, if_true]
          exact Or.inr ⟨qe, rfl, rfl⟩
        · simp only [hdim, Bool.false_eq_true, if_false]
          exact Or.inl trivial

/-- C7 counterexample: a zero-magnitude document embedding yields a `NaN`
score, and the JS comparator `(a, b) => b.score - a.score` then returns
`NaN`, which `SortCompare` coerces to `+0` — the comparator is inconsistent
and the sort order implementation-defined, though still a permutation of
the scored candidates; `slice(0, k)` with `k = 2` keeps both documents.
For the concrete two-candidate list below the scored candidates are
`[NaN, 1]`, and *neither* of the two possible orders of those two documents
is non-increasing by score (JS `<=` is false on `NaN`), so the sequence the
retriever returns is not sorted non-increasing by score as claimed. -/
theorem c7_nan_scores_unsorted :
    scoredDocs cosineSimJS [1] [zDoc, wDoc1] =
      [Retrieved.mk zDoc (none : Option ℝ), Retrieved.mk wDoc1 (some 1)] ∧
    ¬ List.Pairwise (fun a b : Retrieved (Option ℝ) => jsLeNum b.score a.score)
      [Retrieved.mk zDoc (none : Option ℝ), Retrieved.mk wDoc1 (some 1)] ∧
    ¬ List.Pairwise (fun a b : Retrieved (Option ℝ) => jsLeNum b.score a.score)
      [Retrieved.mk wDoc1 (some 1), Retrieved.mk zDoc (none : Option ℝ)] := by
  refine ⟨?_, ?_, ?_⟩
  · have h0 : cosineSimJS [1] [0] = none := by
      unfold cosineSimJS
      norm_num [sumSq]
    have h1 : cosineSimJS [1] [1] = some 1 := by
      unfold cosineSimJS
      norm_num [sumSq, dotProd, Real.sqrt_one]
    simp [scoredDocs, zDoc, wDoc1, h0, h1]
  · intro h
    obtain ⟨hrel, -⟩ := List.pairwise_cons.mp h
    obtain ⟨rx, ry, hx, hy, -⟩ := hrel _ (List.mem_singleton.mpr rfl)
    exact Option.noConfusion hy
  · intro h
    obtain ⟨hrel, -⟩ := List.pairwise_cons.mp h
    obtain ⟨rx, ry, hx, hy, -⟩ := hrel _ (List.mem_singleton.mpr rfl)
    exact Option.noConfusion hx

/-- C7 (amended): over any linearly ordered score domain — which is the
program exactly on runs where every score involved is a finite number, i.e.
when no scored embedding has zero magnitude — the sequence the Semantic
Retriever returns is sorted non-increasing by score, and — when the
embedding call succeeded with `qe` — for every score value `s` the result's
documents with score `s` form a prefix of the scored candidates with score
`s` taken in their original index order (stable tie-breaking); the
retriever is then a pure function of the index, the provider outcome, and
the scorer, hence deterministic.  With a `NaN` score among the candidates
the returned sequence need not be non-increasing, as the counterexample
shows. -/
theorem c7_sorted_stable {σ : Type} [LinearOrder σ] (sim : List ℚ → List ℚ → σ)
    (store : Option VectorStore) (embed : List Char → Except ProviderErr (List ℚ))
    (query : List Char) (k : Nat) (f : Option SearchFilter) :
    List.Pairwise (fun a b : Retrieved σ => b.score ≤ a.score)
      (searchKnowledgeBase sim store embed query k f) ∧
    (∀ qe, embed query = .ok qe → ∀ s : σ,
      (searchKnowledgeBase sim store embed query k f).filter
          (fun d => decide (d.score = s)) <+:
        (scoredDocs sim qe (candidateDocs store f)).filter
          (fun d => decide (d.score = s))) := by
  constructor
  · rcases search_cases sim store embed query k f with h | ⟨qe, _, h⟩
    · rw [h]; exact List.Pairwise.nil
    · rw [h]
      have hs : List.Pairwise sortRel
          (sortByScore (scoredDocs sim qe (candidateDocs store f))) :=
        List.sorted_insertionSort sortRel _
      exact (hs.sublist (List.take_sublist k _))
  · intro qe hqe s
    rcases search_cases sim store embed query k f with h | ⟨qe', hqe', h⟩
    · rw [h]
      exact List.nil_prefix
    · rw [hqe] at hqe'
      cases hqe'
      rw [h]
      have h1 := filter_take_isPrefix
        (sortByScore (scoredDocs sim qe (candidateDocs store f)))
        (fun d => decide (d.score = s)) k
      rwa [filter_sortByScore] at h1

theorem c7_sorted_stable_witness :
    List.Pairwise (fun a b : Retrieved ℕ => b.score ≤ a.score)
      (searchKnowledgeBase numSim (some wStore) embedOkW wQ 5 none) ∧
    (searchKnowledgeBase numSim (some wStore) embedOkW wQ 5 none).filter
        (fun d => decide (d.score = 1)) <+:
      (scoredDocs numSim [1] (candidateDocs (some wStore) none)).filter
        (fun d => decide (d.score = 1)) :=
  ⟨(c7_sorted_stable numSim (some wStore) embedOkW wQ 5 none).1,
   (c7_sorted_stable numSim (some wStore) embedOkW wQ 5 none).2 [1] rfl 1⟩

/-! ## Helper lemmas: Cauchy-Schwarz for the cosine scorer -/

theorem dotProd_nil_left (b : List ℚ) : dotProd [] b = 0 := by
  simp [dotProd]

theorem dotProd_nil_right (a : List ℚ) : dotProd a [] = 0 := by
  cases a <;> simp [dotProd]

theorem dotProd_cons (x y : ℚ) (xs ys : List ℚ) :
    dotProd (x :: xs) (y :: ys) = x * y + dotProd xs ys := by
  simp [dotProd]

theorem sumSq_nil : sumSq [] = 0 := rfl

theorem sumSq_cons (x : ℚ) (xs : List ℚ) : sumSq (x :: xs) = x * x + sumSq xs := by
  simp [sumSq]

theorem sumSq_nonneg (a : List ℚ) : 0 ≤ sumSq a := by
  induction a with
  | nil => simp [sumSq]
  | cons x t ih =>
    rw [sumSq_cons]
    nlinarith [mul_self_nonneg x]

/-- The inductive step of the Cauchy-Schwarz inequality, as pure
arithmetic. -/
theorem cs_step (x y d a b : ℚ) (h : d ^ 2 ≤ a * b) (ha : 0 ≤ a) (hb : 0 ≤ b) :
    (x * y + d) ^ 2 ≤ (x * x + a) * (y * y + b) := by
  rcases eq_or_lt_of_le hb with hb0 | hbpos
  · have hd2 : d ^ 2 = 0 := le_antisymm (by nlinarith) (sq_nonneg d)
    have hd : d = 0 := sq_eq_zero_iff.mp hd2
    subst hd
    nlinarith [mul_nonneg ha (mul_self_nonneg y)]
  · nlinarith [sq_nonneg (x * b - y * d),
      mul_nonneg (add_nonneg (mul_self_nonneg y) hb) (sub_nonneg.mpr h)]

/-- Cauchy-Schwarz for the list dot product (no length hypothesis needed:
`zipWith` truncates, and extra entries only grow the right-hand side). -/
theorem dotProd_sq_le (a : List ℚ) : ∀ b : List ℚ,
    (dotProd a b) ^ 2 ≤ sumSq a * sumSq b := by
  induction a with
  | nil =>
    intro b
    rw [dotProd_nil_left, sumSq_nil]
    simp
  | cons x xs ih =>
    intro b
    cases b with
    | nil =>
      rw [dotProd_nil_right, sumSq_nil]
      simp
    | cons y ys =>
      rw [dotProd_cons, sumSq_cons, sumSq_cons]
      exact cs_step x y (dotProd xs ys) (sumSq xs) (sumSq ys) (ih ys)
        (sumSq_nonneg xs) (sumSq_nonneg ys)

/-- C3 counterexample: on zero-magnitude vectors of matching length the
cosine denominator is zero and the JS division yields a non-finite value
(`NaN`), not a number in `[-1, 1]`. -/
theorem c3_zero_vector_not_val :
    cosineSimilarity [(0 : ℚ)] [(0 : ℚ)] = CosResult.nonFinite ∧
    ¬ ∃ r : ℝ, cosineSimilarity [(0 : ℚ)] [(0 : ℚ)] = CosResult.val r ∧
      -1 ≤ r ∧ r ≤ 1 := by
  have h : cosineSimilarity [(0 : ℚ)] [(0 : ℚ)] = CosResult.nonFinite := by
    unfold cosineSimilarity
    norm_num [sumSq]
  refine ⟨h, ?_⟩
  rw [h]
  rintro ⟨r, hr, -⟩
  exact CosResult.noConfusion hr

/-- C3 (amended): whenever the cosine scorer produces a (finite) numeric
score — which it does exactly when the vector lengths match and both
magnitudes are nonzero — that score lies in `[-1, 1]`; zero-magnitude
vectors instead yield the non-finite `NaN` result, which is not a number in
the interval. -/
theorem c3_cosine_score_bounds (a b : List ℚ) (r : ℝ)
    (h : cosineSimilarity a b = CosResult.val r) : -1 ≤ r ∧ r ≤ 1 := by
  unfold cosineSimilarity at h
  by_cases hlen : a.length ≠ b.length
  · rw [if_pos hlen] at h
    exact absurd h (by simp)
  · rw [if_neg hlen] at h
    by_cases hz : sumSq a = 0 ∨ sumSq b = 0
    · rw [if_pos hz] at h
      exact absurd h (by simp)
    · rw [if_neg hz] at h
      have hr : r = (dotProd a b : ℝ) / (Real.sqrt (sumSq a) * Real.sqrt (sumSq b)) :=
        (CosResult.val.injEq _ _ ▸ h).symm
      push_neg at hz
      have hsa : (0 : ℝ) < (sumSq a : ℝ) := by
        have := sumSq_nonneg a
        have h1 : (0 : ℚ) < sumSq a := lt_of_le_of_ne this (Ne.symm hz.1)
        exact_mod_cast h1
      have hsb : (0 : ℝ) < (sumSq b : ℝ) := by
        have := sumSq_nonneg b
        have h1 : (0 : ℚ) < sumSq b := lt_of_le_of_ne this (Ne.symm hz.2)
        exact_mod_cast h1
      have hden : (0 : ℝ) < Real.sqrt (sumSq a) * Real.sqrt (sumSq b) :=
        mul_pos (Real.sqrt_pos.mpr hsa) (Real.sqrt_pos.mpr hsb)
      have hcs : ((dotProd a b : ℝ)) ^ 2 ≤ (sumSq a : ℝ) * (sumSq b : ℝ) := by
        have := dotProd_sq_le a b
        exact_mod_cast this
      have habs : |(dotProd a b : ℝ)| ≤ Real.sqrt (sumSq a) * Real.sqrt (sumSq b) := by
        have h1 : |(dotProd a b : ℝ)| ≤ Real.sqrt ((sumSq a : ℝ) * (sumSq b : ℝ)) :=
          Real.abs_le_sqrt hcs
        rwa [Real.sqrt_mul hsa.le] at h1
      have : |r| ≤ 1 := by
        rw [hr, abs_div, abs_of_pos hden]
        exact (div_le_one hden).mpr habs
      exact abs_le.mp this

theorem c3_cosine_score_bounds_witness :
    cosineSimilarity [(1 : ℚ)] [(1 : ℚ)] = CosResult.val 1 ∧
    (-1 : ℝ) ≤ 1 ∧ (1 : ℝ) ≤ 1 := by
  have h : cosineSimilarity [(1 : ℚ)] [(1 : ℚ)] = CosResult.val 1 := by
    unfold cosineSimilarity
    norm_num [sumSq, dotProd, Real.sqrt_one]
  exact ⟨h, c3_cosine_score_bounds [(1 : ℚ)] [(1 : ℚ)] 1 h⟩

/-! ## Helper lemmas: brace repair counts -/

theorem count_take_drop (s : List Char) (n : Nat) (c : Char) :
    s.count c = (s.take n).count c + (s.drop n).count c := by
  conv_lhs => rw [← List.take_append_drop n s]
  rw [List.count_append]

theorem insertCloseBrace_counts (s : List Char) (p : Nat × Nat)
    (h : findLimit s = some p) :
    (insertCloseBrace s).count '\x7b' = s.count '\x7b' ∧
    (insertCloseBrace s).count '\x7d' = s.count '\x7d' + 1 := by
  unfold insertCloseBrace
  rw [h]
  rcases p with ⟨q, len⟩
  have h1 := count_take_drop s (q - ((s.take q).reverse.takeWhile isWsJS).length) '\x7b'
  have h2 := count_take_drop s (q - ((s.take q).reverse.takeWhile isWsJS).length) '\x7d'
  constructor
  · rw [List.count_append, List.count_cons, List.count_cons]
    simp only [show (('\x7d' : Char) == '\x7b') = false from rfl,
      show (('\n' : Char) == '\x7b') = false from rfl, Bool.false_eq_true, if_false]
    omega
  · rw [List.count_append, List.count_cons, List.count_cons]
    simp only [show (('\x7d' : Char) == '\x7d') = true from rfl,
      show (('\n' : Char) == '\x7d') = false from rfl, Bool.false_eq_true, if_false, if_true]
    omega

set_option maxRecDepth 40000

/-- C1 counterexample: the spec scenario input (one unclosed brace, no limit
clause) sanitizes to a text with one open brace and zero close braces — the
missing closing brace is *not* inserted at the end of the text, so the
output is not brace-balanced. -/
theorem c1_scenario_unbalanced :
    (cleanSparqlResponse scenarioInput).count '\x7b' = 1 ∧
    (cleanSparqlResponse scenarioInput).count '\x7d' = 0 := by
  constructor
  · decide
  · decide

/-- C1 (amended): when, after the extraction steps, open braces outnumber
close braces, the sanitizer inserts a single closing brace immediately
before the limit clause when one is present — which balances the output
exactly when one brace was missing — and inserts nothing when no limit
clause is present, leaving the output unbalanced.  In particular the spec
scenario (no limit clause) sanitizes to the default prefix block followed by
the leading prose and the `SELECT` body, still with one unclosed brace. -/
theorem c1_sanitizer_brace_repair :
    (∀ r : List Char,
      (sanitizeStages r).count '\x7b' > (sanitizeStages r).count '\x7d' →
      findLimit (sanitizeStages r) = none →
      cleanSparqlResponse r = sanitizeStages r) ∧
    (∀ r : List Char,
      (sanitizeStages r).count '\x7b' = (sanitizeStages r).count '\x7d' + 1 →
      (∃ p, findLimit (sanitizeStages r) = some p) →
      (cleanSparqlResponse r).count '\x7b' = (cleanSparqlResponse r).count '\x7d') ∧
    (cleanSparqlResponse scenarioInput = scenarioExpected ∧
      defaultPrefixBlock.isPrefixOf scenarioExpected = true ∧
      containsTok selectBodyTok scenarioExpected = true ∧
      scenarioExpected.count '\x7b' = scenarioExpected.count '\x7d' + 1) := by
  refine ⟨?_, ?_, ?_, ?_, ?_, ?_⟩
  · intro r hgt hnone
    unfold cleanSparqlResponse step8
    rw [if_pos hgt]
    unfold insertCloseBrace
    rw [hnone]
  · intro r heq ⟨p, hp⟩
    unfold cleanSparqlResponse step8
    rw [if_pos (by omega)]
    have hc := insertCloseBrace_counts (sanitizeStages r) p hp
    omega
  · decide
  · decide
  · decide
  · decide

theorem c1_sanitizer_brace_repair_witness :
    cleanSparqlResponse scenarioInput = sanitizeStages scenarioInput ∧
    (cleanSparqlResponse braceRepairW).count '\x7b' =
      (cleanSparqlResponse braceRepairW).count '\x7d' :=
  ⟨c1_sanitizer_brace_repair.1 scenarioInput (by decide) (by decide),
   c1_sanitizer_brace_repair.2.1 braceRepairW (by decide) ⟨(11, 7), by decide⟩⟩

/-! ## Helper lemmas: the sanitizer is the identity on canonical input -/

theorem ws_not_digit {c : Char} (h : isDigitJS c = true) : isWsJS c = false := by
  rcases hw : isWsJS c with _ | _
  · rfl
  · exfalso
    unfold isWsJS at hw
    simp only [Bool.or_eq_true, beq_iff_eq] at hw
    rcases hw with ((((rfl | rfl) | rfl) | rfl) | rfl) | rfl <;> revert h <;> decide

theorem dropWhile_eq_self_of_head {l : List Char} {c : Char} (h : l.head? = some c)
    (hw : isWsJS c = false) : l.dropWhile isWsJS = l := by
  cases l with
  | nil => rfl
  | cons a t =>
    simp only [List.head?_cons, Option.some.injEq] at h
    subst h
    simp [List.dropWhile_cons, hw]

theorem trimJS_eq_self {s : List Char} {c0 cl : Char} (h0 : s.head? = some c0)
    (hw0 : isWsJS c0 = false) (hl : s.getLast? = some cl) (hwl : isWsJS cl = false) :
    trimJS s = s := by
  unfold trimJS
  rw [dropWhile_eq_self_of_head h0 hw0]
  rw [dropWhile_eq_self_of_head (by rw [List.head?_reverse]; exact hl) hwl]
  exact List.reverse_reverse s

theorem containsTok_of_isPrefixOf {t s : List Char} (h : t.isPrefixOf s = true) :
    containsTok t s = true := by
  cases s with
  | nil =>
    cases t with
    | nil => rfl
    | cons a t' => simp [List.isPrefixOf] at h
  | cons c rest =>
    unfold containsTok
    rw [h]
    rfl

theorem isPrefixOf_of_isPrefixOf_trans {t u s : List Char}
    (h1 : t.isPrefixOf u = true) (h2 : u.isPrefixOf s = true) :
    t.isPrefixOf s = true :=
  List.isPrefixOf_iff_prefix.mpr
    ((List.isPrefixOf_iff_prefix.mp h1).trans (List.isPrefixOf_iff_prefix.mp h2))

theorem removeTokOpt_eq_self {tok : List Char} (htok : fenceTok.isPrefixOf tok = true) :
    ∀ (fuel : Nat) (s : List Char), containsTok fenceTok s = false →
      removeTokOpt tok fuel s = s := by
  intro fuel
  induction fuel with
  | zero => intro s _h; rfl
  | succ n ih =>
    intro s h
    have hnp : tok.isPrefixOf s = false := by
      rcases hp : tok.isPrefixOf s with _ | _
      · rfl
      · rw [containsTok_of_isPrefixOf (isPrefixOf_of_isPrefixOf_trans htok hp)] at h
        exact absurd h (by simp)
    have hnp2 : (tok ++ ['\n']).isPrefixOf s = false := by
      rcases hp : (tok ++ ['\n']).isPrefixOf s with _ | _
      · rfl
      · have htok2 : tok.isPrefixOf (tok ++ ['\n']) = true :=
          List.isPrefixOf_iff_prefix.mpr ⟨['\n'], rfl⟩
        rw [containsTok_of_isPrefixOf
          (isPrefixOf_of_isPrefixOf_trans htok
            (isPrefixOf_of_isPrefixOf_trans htok2 hp))] at h
        exact absurd h (by simp)
    unfold removeTokOpt
    rw [hnp2, hnp]
    simp only [Bool.false_eq_true, if_false]
    cases s with
    | nil => rfl
    | cons c rest =>
      have hrest : containsTok fenceTok rest = false := by
        unfold containsTok at h
        exact (Bool.or_eq_false_iff.mp h).2
      show c :: removeTokOpt tok n rest = c :: rest
      rw [ih rest hrest]

theorem stripFences_eq_self {s : List Char} (h : containsTok fenceTok s = false) :
    stripFences s = s := by
  unfold stripFences removeAllTok
  rw [removeTokOpt_eq_self (by decide) s.length s h,
    removeTokOpt_eq_self (by decide) s.length s h]

theorem findLimit_spec : ∀ (s : List Char) (q len : Nat), findLimit s = some (q, len) →
    limitMatchLen (s.drop q) = some len ∧ ∀ j, j < q → limitMatchLen (s.drop j) = none := by
  intro s
  induction s with
  | nil =>
    intro q len h
    simp [findLimit] at h
  | cons c rest ih =>
    intro q len h
    unfold findLimit at h
    rcases hm : limitMatchLen (c :: rest) with _ | l
    · rw [hm] at h
      rcases hr : findLimit rest with _ | p
      · rw [hr] at h
        simp at h
      · rw [hr] at h
        rcases p with ⟨q', l'⟩
        simp only [Option.map_some', Option.some.injEq, Prod.mk.injEq] at h
        obtain ⟨rfl, rfl⟩ := h
        obtain ⟨hspec1, hspec2⟩ := ih q' l' hr
        constructor
        · simpa using hspec1
        · intro j hj
          cases j with
          | zero => simpa using hm
          | succ j' => simpa using hspec2 j' (by omega)
    · rw [hm] at h
      simp only [Option.some.injEq, Prod.mk.injEq] at h
      obtain ⟨rfl, rfl⟩ := h
      refine ⟨by simpa using hm, ?_⟩
      intro j hj
      omega

theorem findLimit_mk : ∀ (s : List Char) (q len : Nat),
    limitMatchLen (s.drop q) = some len →
    (∀ j, j < q → limitMatchLen (s.drop j) = none) → findLimit s = some (q, len) := by
  intro s
  induction s with
  | nil =>
    intro q len h _hj
    rw [List.drop_nil] at h
    rw [show limitMatchLen ([] : List Char) = none from rfl] at h
    exact Option.noConfusion h
  | cons c rest ih =>
    intro q len h hj
    unfold findLimit
    cases q with
    | zero =>
      rw [List.drop_zero] at h
      rw [h]
    | succ q' =>
      have h0 : limitMatchLen (c :: rest) = none := by simpa using hj 0 (by omega)
      rw [h0]
      have hrec := ih q' len (by simpa using h)
        (fun j hjj => by simpa using hj (j + 1) (by omega))
      rw [hrec]
      rfl

theorem findLimit_drop (s : List Char) (q len m : Nat) (h : findLimit s = some (q, len))
    (hm : m ≤ q) : findLimit (s.drop m) = some (q - m, len) := by
  obtain ⟨h1, h2⟩ := findLimit_spec s q len h
  apply findLimit_mk
  · have hd : (s.drop m).drop (q - m) = s.drop q := by
      rw [List.drop_drop]
      congr 1
      omega
    rw [hd]
    exact h1
  · intro j hjj
    have hd : (s.drop m).drop j = s.drop (m + j) := by
      rw [List.drop_drop]
    rw [hd]
    exact h2 (m + j) (by omega)

theorem ciIsPrefixOf_append (pat t : List Char) : ciIsPrefixOf pat (pat ++ t) = true := by
  induction pat with
  | nil => rfl
  | cons a as ih => simp [ciIsPrefixOf, ih]

theorem findCiTok_zero {pat s : List Char} (hne : pat ≠ [])
    (h : ciIsPrefixOf pat s = true) : findCiTok pat s = some 0 := by
  cases s with
  | nil =>
    cases pat with
    | nil => exact absurd rfl hne
    | cons a as => simp [ciIsPrefixOf] at h
  | cons c rest =>
    unfold findCiTok
    rw [h]
    rfl

theorem findTok_zero {pat s : List Char} (hne : pat ≠ [])
    (h : pat.isPrefixOf s = true) : findTok pat s = some 0 := by
  cases s with
  | nil =>
    cases pat with
    | nil => exact absurd rfl hne
    | cons a as => simp [List.isPrefixOf] at h
  | cons c rest =>
    unfold findTok
    rw [h]
    rfl

/-- C4 counterexample: this input starts with a prefix declaration, ends in
a limit clause (the match at index 47 runs to the end), and is
brace-balanced, yet sanitizing twice differs from sanitizing once: the
step-3 extraction cuts at the *internal* `LIMIT 5`, leaving two unclosed
braces, and each sanitizer pass then inserts only one closing brace. -/
theorem c4_idempotence_fails_internal_limit :
    prefixKw.isPrefixOf internalLimitW = true ∧
    limitMatchLen (internalLimitW.drop 47) = some 7 ∧
    47 + 7 = internalLimitW.length ∧
    internalLimitW.count '\x7b' = internalLimitW.count '\x7d' ∧
    cleanSparqlResponse (cleanSparqlResponse internalLimitW) ≠
      cleanSparqlResponse internalLimitW := by
  refine ⟨by decide, by decide, by decide, by decide, by decide⟩

/-- C4 (amended): the sanitizer is the identity — hence idempotent — on
canonical well-formed input: text that starts with the `PREFIX` keyword,
contains no code fence, is brace-balanced, ends in a digit, and whose
*first* limit-clause match is terminal (ends exactly at the end of the
text) and lies after the prefix keyword.  An internal limit clause breaks
idempotence, as the counterexample shows. -/
theorem c4_sanitizer_idempotent_canonical (x : List Char) (q len : Nat)
    (hpre : prefixKw.isPrefixOf x = true)
    (hfence : containsTok fenceTok x = false)
    (hlim : findLimit x = some (q, len))
    (hend : q + len = x.length)
    (hq6 : 6 ≤ q)
    (hbal : x.count '\x7b' = x.count '\x7d')
    (hlast : ∃ c, x.getLast? = some c ∧ isDigitJS c = true) :
    cleanSparqlResponse x = x ∧
    cleanSparqlResponse (cleanSparqlResponse x) = cleanSparqlResponse x := by
  obtain ⟨u, hu⟩ := List.isPrefixOf_iff_prefix.mp hpre
  obtain ⟨cl, hcl, hcld⟩ := hlast
  have hhead : x.head? = some 'P' := by
    rw [← hu]
    rfl
  have htrim : trimJS x = x :=
    trimJS_eq_self hhead (by decide) hcl (ws_not_digit hcld)
  have hfences : stripFences x = x := stripFences_eq_self hfence
  have hstep34 : step34 x = x := by
    have hci : ciIsPrefixOf prefixKw x = true := by
      rw [← hu]
      exact ciIsPrefixOf_append prefixKw u
    have hfl6 : findLimit (x.drop 6) = some (q - 6, len) :=
      findLimit_drop x q len 6 hlim hq6
    unfold step34 extractKwLimit
    rw [findCiTok_zero (by decide) hci]
    simp only [List.drop_zero]
    rw [show prefixKw.length = 6 from rfl, hfl6]
    show trimJS (List.take (6 + (q - 6) + len) x) = x
    have harith : 6 + (q - 6) + len = x.length := by omega
    rw [harith, List.take_length]
    exact htrim
  have hstep5 : step5 x = x := by
    unfold step5
    rw [findTok_zero (by decide) hpre]
    simp
  have hstep6 : step6 x = x := by
    unfold step6
    rw [hlim]
    show List.take (q + len) x = x
    rw [hend, List.take_length]
  have hstep7 : step7 x = x := by
    unfold step7
    rw [containsTok_of_isPrefixOf hpre]
    rfl
  have hstep8 : step8 x = x := by
    unfold step8
    rw [if_neg (by omega)]
  have hclean : cleanSparqlResponse x = x := by
    unfold cleanSparqlResponse sanitizeStages
    rw [htrim, hfences, hstep34, hstep5, hstep6, hstep7, hstep8]
  exact ⟨hclean, by rw [hclean, hclean]⟩

theorem c4_sanitizer_idempotent_canonical_witness :
    cleanSparqlResponse xGoodW = xGoodW ∧
    cleanSparqlResponse (cleanSparqlResponse xGoodW) = cleanSparqlResponse xGoodW :=
  c4_sanitizer_idempotent_canonical xGoodW 42 8 (by decide) (by decide) (by decide)
    (by decide) (by decide) (by decide) ⟨'0', by decide, by decide⟩
